import Mathlib

/-!
Verification of the core algorithms of the Mindmap-2-Doc application:
the mind-map tree document model (node lookup, hierarchical numbering,
dependency propagation, mutation pipeline, bounded undo history) and the
two graph-to-tree projectors (process flow with cycle handling, and the
actor/interaction mesh projector).

Each definition is a shallow embedding of the corresponding TypeScript
function; display-only fields that the verified operations never read or
write (colors, cached AI text, collapse flags, and so on) are omitted
from the data model.
-/

set_option maxHeartbeats 1000000

/-- The mind-map tree node (`MindMapData` in `types.ts`), restricted to the
fields read or written by the verified core operations: `id`, `label`,
`watchedNodeIds`, `isFlaggedForReview`, `flaggedSourceIds`, `children`. -/
inductive MindMapData : Type where
  | mk (id : String) (label : String) (watchedNodeIds : List String)
       (isFlaggedForReview : Bool) (flaggedSourceIds : List String)
       (children : List MindMapData)
deriving Repr

def MindMapData.id : MindMapData → String
  | .mk i _ _ _ _ _ => i

def MindMapData.label : MindMapData → String
  | .mk _ l _ _ _ _ => l

def MindMapData.watchedNodeIds : MindMapData → List String
  | .mk _ _ w _ _ _ => w

def MindMapData.isFlaggedForReview : MindMapData → Bool
  | .mk _ _ _ f _ _ => f

def MindMapData.flaggedSourceIds : MindMapData → List String
  | .mk _ _ _ _ fs _ => fs

def MindMapData.children : MindMapData → List MindMapData
  | .mk _ _ _ _ _ cs => cs

/-- Result record of `findNodeAndPath`: the found node, its label path from
the root, and its parent (`none` for the root). -/
structure FindResult where
  node : MindMapData
  path : List String
  parent : Option MindMapData

mutual

/-- Embedding of `findNodeAndPath` from the main application file: locates a node by id
and reconstructs its label path; depth-first, children in list order, with
each child's id checked before recursing into that child. -/
def findNodeAndPath (root : MindMapData) (targetId : String)
    (currentPath : List String) : Option FindResult :=
  match root with
  | .mk i l _ _ _ cs =>
    if i = targetId then
      some ⟨root, currentPath ++ [l], none⟩
    else
      findNAPChildren root targetId (currentPath ++ [l]) cs

/-- The `for (const child of root.children)` loop body of `findNodeAndPath`. -/
def findNAPChildren (parent : MindMapData) (targetId : String)
    (pathWithParent : List String) : List MindMapData → Option FindResult
  | [] => none
  | c :: rest =>
    if c.id = targetId then
      some ⟨c, pathWithParent ++ [c.label], some parent⟩
    else
      match findNodeAndPath c targetId pathWithParent with
      | some r => some r
      | none => findNAPChildren parent targetId pathWithParent rest

end

mutual

/-- Embedding of `calculateNodeNumber` from the main application file: derives the dotted
outline number ("1.0" sentinel for the root, "1.1", "1.1.2", ...) of the
node with the given id, or `none` when the id is absent. -/
def calculateNodeNumber (root : MindMapData) (targetId : String)
    (currentNumber : String) : Option String :=
  match root with
  | .mk i _ _ _ _ cs =>
    if i = targetId then some currentNumber
    else
      calcNumChildren targetId
        (if currentNumber = "1.0" then "1" else currentNumber) 1 cs

/-- The indexed `for` loop of `calculateNodeNumber`; `idx` is the 1-based
child index (`i + 1` in the source). -/
def calcNumChildren (targetId : String) (base : String) (idx : Nat) :
    List MindMapData → Option String
  | [] => none
  | c :: rest =>
    match calculateNodeNumber c targetId (base ++ "." ++ toString idx) with
    | some r => some r
    | none => calcNumChildren targetId base (idx + 1) rest

end

/-- Wrapper applying `calculateNodeNumber` with its default `currentNumber = "1.0"` argument. -/
def nodeNumber (root : MindMapData) (targetId : String) : Option String :=
  calculateNodeNumber root targetId "1.0"

mutual

/-- The `traverse` closure of `checkDependencies`: shallow-copies every node;
a node watching the changed id gets `isFlaggedForReview := true` and the
changed id appended to `flaggedSourceIds` unless already present. -/
def checkDepNode (changedNodeId : String) : MindMapData → MindMapData
  | .mk i l w f fs cs =>
    let f' := if changedNodeId ∈ w then true else f
    let fs' := if changedNodeId ∈ w then
        (if changedNodeId ∈ fs then fs else fs ++ [changedNodeId])
      else fs
    .mk i l w f' fs' (checkDepList changedNodeId cs)

/-- The `children.map(traverse)` part of `checkDependencies`. -/
def checkDepList (changedNodeId : String) : List MindMapData → List MindMapData
  | [] => []
  | c :: rest => checkDepNode changedNodeId c :: checkDepList changedNodeId rest

end

/-- Embedding of `checkDependencies` from the main application file. -/
def checkDependencies (root : MindMapData) (changedNodeId : String) : MindMapData :=
  checkDepNode changedNodeId root

mutual

/-- All nodes of a tree (the node itself followed by its descendants). -/
def allNodes : MindMapData → List MindMapData
  | .mk i l w f fs cs => .mk i l w f fs cs :: allNodesList cs

def allNodesList : List MindMapData → List MindMapData
  | [] => []
  | c :: rest => allNodes c ++ allNodesList rest

end

mutual

/-- All node ids of a tree, in depth-first pre-order. -/
def allIds : MindMapData → List String
  | .mk i _ _ _ _ cs => i :: allIdsList cs

def allIdsList : List MindMapData → List String
  | [] => []
  | c :: rest => allIds c ++ allIdsList rest

end

instance : Inhabited MindMapData := ⟨.mk "" "" [] false [] []⟩

/-- One entry of the undo/redo stack (`HistoryEntry` in the main application
file): a full snapshot of the document plus a description and timestamp. -/
structure HistoryEntry where
  data : MindMapData
  description : String
  timestamp : Nat
deriving Repr

instance : Inhabited HistoryEntry := ⟨⟨default, "", 0⟩⟩

/-- The document-and-history portion of the application state: the live
document (`mindMap`, nullable), the history stack, and the current history
index (initially `-1`). -/
structure AppState where
  mindMap : Option MindMapData
  history : List HistoryEntry
  historyIndex : Int

/-- The empty initial state (`mindMap = null`, `history = []`,
`historyIndex = -1`). -/
def initialState : AppState := ⟨none, [], -1⟩

/-- Embedding of `commitToHistory`: truncates the stack to `historyIndex + 1` entries
(dropping any redo branch), appends the new snapshot, evicts the oldest
entry if the stack would exceed 10 entries (`newHistory.shift()`), replaces
the live document, and (via the `useEffect` on `history`) leaves the index
pointing at the last entry. -/
def commitToHistory (s : AppState) (newData : MindMapData) (description : String)
    (now : Nat) : AppState :=
  let currentHistory := s.history.take (s.historyIndex + 1).toNat
  let newHistory := currentHistory ++ [⟨newData, description, now⟩]
  let newHistory := if newHistory.length > 10 then newHistory.drop 1 else newHistory
  { mindMap := some newData
    history := newHistory
    historyIndex := (newHistory.length : Int) - 1 }

/-- Embedding of `restoreFromHistory(index)`: boundary-checked; inside `[0, length)` it
makes the indexed snapshot the live document and moves the index, otherwise
it is a no-op. The stack itself is never modified. -/
def restoreFromHistory (s : AppState) (index : Int) : AppState :=
  if 0 ≤ index ∧ index < (s.history.length : Int) then
    { s with
      mindMap := some (s.history.getD index.toNat default).data
      historyIndex := index }
  else s

/-- Undo as wired to the toolbar button: `restoreFromHistory(historyIndex - 1)`. -/
def undoStep (s : AppState) : AppState :=
  restoreFromHistory s (s.historyIndex - 1)

mutual

/-- The pure counterpart of locating `nodeId` in a deep clone and
`Object.assign`-ing `updateFn(node)` over it: rebuilds the tree with the
(under the unique-id invariant, unique) matching node replaced by
`updateFn` of itself. -/
def replaceNode (targetId : String) (updateFn : MindMapData → MindMapData) :
    MindMapData → MindMapData
  | .mk i l w f fs cs =>
    if i = targetId then updateFn (.mk i l w f fs cs)
    else .mk i l w f fs (replaceNodeList targetId updateFn cs)

def replaceNodeList (targetId : String) (updateFn : MindMapData → MindMapData) :
    List MindMapData → List MindMapData
  | [] => []
  | c :: rest => replaceNode targetId updateFn c :: replaceNodeList targetId updateFn rest

end

/-- Embedding of `updateNodeInTree`: the single write path into the document. Clones the
document, locates the target via `findNodeAndPath`, applies the update,
optionally runs `checkDependencies` with the mutated node's id, and commits
the clone to history. When the document is absent or the target id is not
found, it returns the state unchanged (silent miss: no commit, no dependency
check). The external auto-save side effect (file download) is out of scope. -/
def updateNodeInTree (s : AppState) (nodeId : String)
    (updateFn : MindMapData → MindMapData) (actionDescription : String)
    (triggerDependencyCheck : Bool) (now : Nat) : AppState :=
  match s.mindMap with
  | none => s
  | some m =>
    match findNodeAndPath m nodeId [] with
    | none => s
    | some _ =>
      let clone := replaceNode nodeId updateFn m
      let clone := if triggerDependencyCheck then checkDependencies clone nodeId else clone
      commitToHistory s clone actionDescription now

/-- Step type tag of a process step (`'action' | 'decision'`). -/
inductive StepType : Type where
  | action
  | decision
deriving DecidableEq, Repr

/-- One labeled outgoing branch of a decision step; `targetStepId` is `none`
when the branch is unresolved. -/
structure Branch where
  id : String
  label : String
  targetStepId : Option String
deriving DecidableEq, Repr

/-- A process-flow step (`ProcessStep` in `types.ts`), restricted to the
fields the projector and auto-linker read. The `branches` field is always
present (non-decision steps and the generator's decision steps without
branches carry `[]`; the JavaScript undefined-vs-empty distinction is not
represented, and no verified behavior depends on it). -/
structure ProcessStep where
  id : String
  stepNumber : Nat
  type : StepType
  action : String
  role : String
  isEndState : Bool
  branches : List Branch
deriving DecidableEq, Repr

/-- Character-level prefix test used to express JavaScript's
`String.prototype.includes`. -/
def firstMatches : List Char → List Char → Bool
  | [], _ => true
  | _ :: _, [] => false
  | a :: as, b :: bs => a == b && firstMatches as bs

/-- Whether `hay` contains `needle` as a contiguous substring
(JavaScript `hay.includes(needle)`). -/
def charsContain (needle : List Char) : List Char → Bool
  | [] => needle.isEmpty
  | c :: rest => firstMatches needle (c :: rest) || charsContain needle rest

/-- JavaScript `hay.includes(needle)` on strings. -/
def strIncludes (hay needle : String) : Bool :=
  charsContain needle.data hay.data

/-- JavaScript `s.toLowerCase()`, modelled characterwise over the string's data. -/
def lowerStr (s : String) : String := ⟨s.data.map Char.toLower⟩

/-- The fixed positive-outcome vocabulary of the auto-linker. -/
def positiveKeywords : List String :=
  ["yes", "success", "pass", "ok", "true", "confirmed", "valid"]

/-- The update `newBranches[targetIndex] = { ...branch, targetStepId: nextStep.id }`:
replaces the target of the branch at the given index. -/
def setBranchTarget : List Branch → Nat → String → List Branch
  | [], _, _ => []
  | b :: rest, 0, tid => { b with targetStepId := some tid } :: rest
  | b :: rest, n + 1, tid => b :: setBranchTarget rest n tid

/-- The `steps.map((step, index) => ...)` loop body of `autoLinkDecisions`:
a decision step with branches, none of which has a target, followed by a
next step, gets the first positive-keyword branch (or the first branch when
none matches) linked to the next step's id; every other step is returned
unchanged. -/
def autoLinkStep (steps : List ProcessStep) (index : Nat)
    (step : ProcessStep) : ProcessStep :=
  if step.type = StepType.decision ∧ step.branches ≠ [] then
    match steps[index + 1]? with
    | some nextStep =>
      if step.branches.any (fun b => b.targetStepId.isSome) then step
      else
        let bestBranchIndex := step.branches.findIdx? fun b =>
          positiveKeywords.any fun k => strIncludes (lowerStr b.label) k
        let targetIndex := bestBranchIndex.getD 0
        { step with branches := setBranchTarget step.branches targetIndex nextStep.id }
    | none => step
  else step

/-- Embedding of `autoLinkDecisions`: the indexed map of `autoLinkStep` over the list. -/
def autoLinkDecisions (steps : List ProcessStep) : List ProcessStep :=
  steps.enum.map fun p => autoLinkStep steps p.1 p.2

/-- Display-node tag of the flow-chart tree (`'step' | 'placeholder'`). -/
inductive NodeKind : Type where
  | step
  | placeholder
deriving DecidableEq, Repr

/-- A node of the projected flow-chart tree (`DisplayNode` in `Modals.tsx`);
`action` and `role` are the displayed `data` fields, `label` is the branch
label attached by the parent decision step. -/
inductive DisplayNode : Type where
  | mk (id : String) (action : String) (role : String) (stepNumber : Nat)
       (kind : NodeKind) (label : Option String) (children : List DisplayNode)
deriving Repr

/-- The assignment `childNode.label = branch.label`. -/
def DisplayNode.withLabel : DisplayNode → String → DisplayNode
  | .mk i a r sn k _ cs, lbl => .mk i a r sn k (some lbl) cs

def DisplayNode.role : DisplayNode → String
  | .mk _ _ r _ _ _ _ => r

def DisplayNode.children : DisplayNode → List DisplayNode
  | .mk _ _ _ _ _ _ cs => cs

/-- Ids of all steps in a list. -/
def stepIds (steps : List ProcessStep) : List String := steps.map (·.id)

/-- Number of step ids not on the visited path; the core of the projector's
termination measure. -/
def unvisitedCount (steps : List ProcessStep) (visited : List String) : Nat :=
  ((stepIds steps).filter (fun i => decide (i ∉ visited))).length

/-- Termination measure of `buildTree`: unvisited step ids, plus one when the
current step is itself unvisited but foreign to the list. -/
def buildMeasure (steps : List ProcessStep) (step : ProcessStep)
    (visited : List String) : Nat :=
  unvisitedCount steps visited +
    (if step.id ∉ visited ∧ step.id ∉ stepIds steps then 1 else 0)

theorem length_filter_le_of {α : Type} {l : List α} {p q : α → Bool}
    (hpq : ∀ x ∈ l, p x = true → q x = true) :
    (l.filter p).length ≤ (l.filter q).length := by
  induction l with
  | nil => simp
  | cons x xs ih =>
    have ih' := ih fun y hy hpy => hpq y (List.mem_cons_of_mem _ hy) hpy
    by_cases hp : p x = true
    · have hq := hpq x (List.mem_cons_self _ _) hp
      simp [List.filter_cons, hp, hq]
      omega
    · have hp' : p x = false := by revert hp; cases p x <;> simp
      cases hqx : q x
      · simp [List.filter_cons, hp', hqx]
        exact ih'
      · simp [List.filter_cons, hp', hqx]
        omega

theorem length_filter_lt_of {α : Type} {l : List α} {p q : α → Bool}
    (hpq : ∀ x ∈ l, p x = true → q x = true) {a : α} (ha : a ∈ l)
    (hqa : q a = true) (hpa : p a = false) :
    (l.filter p).length < (l.filter q).length := by
  induction l with
  | nil => cases ha
  | cons x xs ih =>
    rcases List.mem_cons.mp ha with h | h
    · subst h
      have := length_filter_le_of (l := xs) (p := p) (q := q)
        fun y hy hpy => hpq y (List.mem_cons_of_mem _ hy) hpy
      simp [List.filter_cons, hpa, hqa]
      omega
    · have ih' := ih (fun y hy hpy => hpq y (List.mem_cons_of_mem _ hy) hpy) h
      by_cases hp : p x = true
      · have hq := hpq x (List.mem_cons_self _ _) hp
        simp [List.filter_cons, hp, hq]
        omega
      · have hp' : p x = false := by revert hp; cases p x <;> simp
        cases hqx : q x
        · simp [List.filter_cons, hp', hqx]
          exact ih'
        · simp [List.filter_cons, hp', hqx]
          omega

/-- Visiting an unvisited step strictly shrinks the projector's measure,
seen from the caller's measure. -/
theorem unvisitedCount_lt (steps : List ProcessStep) (step : ProcessStep)
    (visited : List String) (h1 : step.id ∉ visited) :
    unvisitedCount steps (step.id :: visited) < buildMeasure steps step visited := by
  by_cases hmem : step.id ∈ stepIds steps
  · have hlt : unvisitedCount steps (step.id :: visited) < unvisitedCount steps visited := by
      unfold unvisitedCount
      refine length_filter_lt_of ?_ hmem ?_ ?_
      · intro x _ hx
        simp only [decide_eq_true_eq] at hx ⊢
        intro hxv
        exact hx (List.mem_cons_of_mem _ hxv)
      · simpa using h1
      · simp
    unfold buildMeasure
    omega
  · have heq : unvisitedCount steps (step.id :: visited) = unvisitedCount steps visited := by
      unfold unvisitedCount
      apply congrArg
      apply List.filter_congr
      intro x hx
      have hne : x ≠ step.id := fun hxe => hmem (hxe ▸ hx)
      simp [List.mem_cons, hne]
    unfold buildMeasure
    simp only [heq, hmem, h1]
    simp
theorem buildMeasure_lt (steps : List ProcessStep) (step t : ProcessStep)
    (visited : List String) (h1 : step.id ∉ visited) (h2 : t ∈ steps) :
    buildMeasure steps t (step.id :: visited) < buildMeasure steps step visited := by
  have hid : t.id ∈ stepIds steps := List.mem_map_of_mem _ h2
  have : buildMeasure steps t (step.id :: visited) =
      unvisitedCount steps (step.id :: visited) := by
    unfold buildMeasure
    simp [hid]
  rw [this]
  exact unvisitedCount_lt steps step visited h1

/-- The measure of a step drawn from the list collapses to the unvisited
count. -/
theorem buildMeasure_of_mem (steps : List ProcessStep) (t : ProcessStep)
    (visited : List String) (h : t ∈ steps) :
    buildMeasure steps t visited = unvisitedCount steps visited := by
  have hid : t.id ∈ stepIds steps := List.mem_map_of_mem _ h
  unfold buildMeasure
  simp [hid]

mutual

/-- Embedding of `buildTree` from `ProcessFlowChart` in `Modals.tsx`: projects the flat
step list into a display tree starting from `step`, carrying the visited ids
of the current path. A step already on the path becomes a terminal loop node
(role `"Process Cycle"`, action referencing the looped-to step's sequence
number; the random suffix of its synthetic id is modelled away). A decision
step gets one child per branch; other steps continue to the next sequence
number unless they are end states. -/
def buildTree (steps : List ProcessStep) (step : ProcessStep)
    (visited : List String) : DisplayNode :=
  if h : step.id ∈ visited then
    .mk ("loop-" ++ step.id) ("↩ Loop to Step " ++ toString step.stepNumber)
      "Process Cycle" step.stepNumber .step none []
  else if step.type = StepType.decision then
    .mk step.id step.action step.role step.stepNumber .step none
      (buildBranches steps (step.id :: visited) step.branches)
  else
    .mk step.id step.action step.role step.stepNumber .step none
      (if step.isEndState then []
       else
         match hf : steps.find? (fun s => s.stepNumber = step.stepNumber + 1) with
         | some next => [buildTree steps next (step.id :: visited)]
         | none => [])
termination_by (buildMeasure steps step visited, 0)
decreasing_by
  · exact Prod.Lex.left _ _ (unvisitedCount_lt steps step visited h)
  · exact Prod.Lex.left _ _
      (buildMeasure_lt steps step next visited h (List.mem_of_find?_eq_some hf))

/-- The `branches.forEach` loop of `buildTree`: a resolved branch whose
target id exists yields the recursively built subtree tagged with the branch
label; a resolved branch whose target id matches no step yields nothing; an
unresolved branch yields an "Undefined Path" placeholder leaf. The source's
`idMap.get` lookup is modelled as `find?`; the two agree whenever step ids
are unique. -/
def buildBranches (steps : List ProcessStep) (visited : List String) :
    List Branch → List DisplayNode
  | [] => []
  | b :: rest =>
    (match b.targetStepId with
     | some tid =>
       match hf : steps.find? (fun s => s.id = tid) with
       | some targetStep => [(buildTree steps targetStep visited).withLabel b.label]
       | none => []
     | none =>
       [.mk ("missing-" ++ b.id) "Undefined Path" "" 0 .placeholder (some b.label) []])
      ++ buildBranches steps visited rest
termination_by bs => (unvisitedCount steps visited, bs.length + 1)
decreasing_by
  · rw [buildMeasure_of_mem steps targetStep visited (List.mem_of_find?_eq_some hf)]
    exact Prod.Lex.right _ (by omega)
  · exact Prod.Lex.right _ (by simp only [List.length_cons]; omega)

end

/-- The reduction `steps.reduce((prev, curr) => prev.stepNumber < curr.stepNumber ? prev : curr)`:
the step with the smallest sequence number (ties resolved to the later
element, as in the source). `none` on the empty list. -/
def firstStep : List ProcessStep → Option ProcessStep
  | [] => none
  | s :: rest =>
    some (rest.foldl
      (fun prev curr => if prev.stepNumber < curr.stepNumber then prev else curr) s)

/-- The whole projection: `buildTree(firstStep, new Set())`, or no tree for an
empty step list (the `if (!steps.length)` early return). -/
def buildProcessTree (steps : List ProcessStep) : Option DisplayNode :=
  match firstStep steps with
  | none => none
  | some f => some (buildTree steps f [])

mutual

/-- Number of synthetic loop nodes (role `"Process Cycle"`) in a display
tree. -/
def countLoopNodes : DisplayNode → Nat
  | .mk _ _ r _ _ _ cs => (if r = "Process Cycle" then 1 else 0) + countLoopList cs

def countLoopList : List DisplayNode → Nat
  | [] => 0
  | c :: rest => countLoopNodes c + countLoopList rest

end

/-! ### The adversarial cyclic step list of the spec:
step 1 → decision → step 2 → decision → step 1. -/

/-- Cyclic example, first step: a decision whose only branch targets step 2. -/
def cycStep1 : ProcessStep :=
  ⟨"s1", 1, .decision, "Check", "User", false, [⟨"b1", "retry", some "s2"⟩]⟩

/-- Cyclic example, second step: a decision whose only branch targets step 1,
closing the cycle. -/
def cycStep2 : ProcessStep :=
  ⟨"s2", 2, .decision, "Recheck", "User", false, [⟨"b2", "back", some "s1"⟩]⟩

/-- The adversarial cyclic step list. -/
def cycSteps : List ProcessStep := [cycStep1, cycStep2]

/-- The synthetic terminal loop node `buildTree` emits for a step already on
the current path. -/
def loopNodeFor (step : ProcessStep) : DisplayNode :=
  .mk ("loop-" ++ step.id) ("↩ Loop to Step " ++ toString step.stepNumber)
    "Process Cycle" step.stepNumber .step none []

/-- C2: for every finite step list the projection is a total function (the
well-founded recursion of `buildTree` is its termination witness), a branch
targeting a step already on the current path yields the synthetic terminal
loop node — whose label references the looped-to step's sequence number —
instead of recursing, and on the adversarial cyclic step list
`step 1 → decision → step 2 → decision → step 1` the produced finite tree
contains exactly one such loop node. -/
theorem buildTree_cycle_terminates :
    (∀ (steps : List ProcessStep) (step : ProcessStep) (visited : List String),
      step.id ∈ visited → buildTree steps step visited = loopNodeFor step) ∧
    (buildProcessTree cycSteps).map countLoopNodes = some 1 := by
  constructor
  · intro steps step visited hmem
    rw [buildTree.eq_def]
    simp [loopNodeFor, hmem]
  · have h3 : buildTree cycSteps cycStep1 ["s2", "s1"] = loopNodeFor cycStep1 := by
      rw [buildTree.eq_def]; rfl
    have h2 : buildTree cycSteps cycStep2 ["s1"] =
        .mk "s2" "Recheck" "User" 2 .step none [(loopNodeFor cycStep1).withLabel "back"] := by
      rw [buildTree.eq_def]
      show DisplayNode.mk "s2" "Recheck" "User" 2 .step none
        (buildBranches cycSteps ["s2", "s1"] [⟨"b2", "back", some "s1"⟩]) = _
      rw [buildBranches.eq_def]
      show DisplayNode.mk "s2" "Recheck" "User" 2 .step none
        ([(buildTree cycSteps cycStep1 ["s2", "s1"]).withLabel "back"] ++
          buildBranches cycSteps ["s2", "s1"] []) = _
      rw [h3, buildBranches.eq_def]
      rfl
    have h1 : buildTree cycSteps cycStep1 [] =
        .mk "s1" "Check" "User" 1 .step none
          [(DisplayNode.mk "s2" "Recheck" "User" 2 .step none
              [(loopNodeFor cycStep1).withLabel "back"]).withLabel "retry"] := by
      rw [buildTree.eq_def]
      show DisplayNode.mk "s1" "Check" "User" 1 .step none
        (buildBranches cycSteps ["s1"] [⟨"b1", "retry", some "s2"⟩]) = _
      rw [buildBranches.eq_def]
      show DisplayNode.mk "s1" "Check" "User" 1 .step none
        ([(buildTree cycSteps cycStep2 ["s1"]).withLabel "retry"] ++
          buildBranches cycSteps ["s1"] []) = _
      rw [h2, buildBranches.eq_def]
      rfl
    show some (countLoopNodes (buildTree cycSteps cycStep1 [])) = some 1
    rw [h1]
    rfl

/-- C2 witness: the loop-node equation applied at a concrete visited step. -/
theorem buildTree_cycle_terminates_witness :
    buildTree cycSteps cycStep1 ["s1"] = loopNodeFor cycStep1 :=
  buildTree_cycle_terminates.1 cycSteps cycStep1 ["s1"] (by decide)

/-- C10: in the process-flow projection, a branch with a non-null target id
that matches no step in the list contributes no child at all (the
`if (targetStep)` guard has no `else`), whereas a branch with a null target
contributes an "Undefined Path" placeholder leaf. -/
theorem buildTree_dangling_branch_omitted :
    (∀ (steps : List ProcessStep) (visited : List String) (b : Branch)
       (rest : List Branch) (tid : String),
      b.targetStepId = some tid →
      steps.find? (fun s => s.id = tid) = none →
      buildBranches steps visited (b :: rest) = buildBranches steps visited rest) ∧
    (∀ (steps : List ProcessStep) (visited : List String) (b : Branch)
       (rest : List Branch),
      b.targetStepId = none →
      buildBranches steps visited (b :: rest) =
        DisplayNode.mk ("missing-" ++ b.id) "Undefined Path" "" 0 .placeholder
          (some b.label) [] :: buildBranches steps visited rest) := by
  constructor
  · intro steps visited b rest tid htid hfind
    rw [buildBranches.eq_def]
    simp only [htid]
    have hm : (match hf : steps.find? (fun s => s.id = tid) with
        | some targetStep => [(buildTree steps targetStep visited).withLabel b.label]
        | none => []) = ([] : List DisplayNode) := by
      split
      · rename_i targetStep heq
        rw [hfind] at heq
        cases heq
      · rfl
    rw [hm]
    simp
  · intro steps visited b rest htid
    rw [buildBranches.eq_def]
    simp [htid]

/-! ### Mesh-to-tree projector (`buildSystemTree` in `SystemsViewModal.tsx`) -/

/-- An actor of the systems view (`SystemActor` in `types.ts`). -/
structure SystemActor where
  id : String
  name : String
  type : String
deriving DecidableEq, Repr

/-- A directed labeled interaction of the systems view; `source` and `target`
are actor ids (the source's `typeof === 'object'` checks only unwrap ids that
the layout library replaced with object references, so plain ids model both
shapes). -/
structure SystemInteraction where
  id : String
  source : String
  target : String
  activity : String
  data : String
deriving DecidableEq, Repr

/-- The flat actor/interaction mesh (`SystemsViewData`). -/
structure SystemsViewData where
  actors : List SystemActor
  interactions : List SystemInteraction
deriving DecidableEq, Repr

/-- A node of the projected systems tree: the object literal returned by
`buildNode`, with `linkLabel` attached by the parent. -/
inductive SysNode : Type where
  | mk (id : String) (label : String) (nodeType : String) (nature : String)
       (source : String) (description : String) (linkLabel : Option String)
       (children : List SysNode)
deriving Repr

def SysNode.id : SysNode → String
  | .mk i _ _ _ _ _ _ _ => i

def SysNode.children : SysNode → List SysNode
  | .mk _ _ _ _ _ _ _ cs => cs

/-- The assignment `node.linkLabel = c.interaction`. -/
def SysNode.withLink : SysNode → String → SysNode
  | .mk i l nt na s d _ cs, lbl => .mk i l nt na s d (some lbl) cs

/-- The `relevantActors` set: endpoints of every interaction whose payload
equals the active filter (order of collection is irrelevant, only membership
is consulted). -/
def relevantActorIds (data : SystemsViewData) (f : String) : List String :=
  data.interactions.foldl
    (fun acc i => if i.data = f then i.source :: i.target :: acc else acc) []

/-- The `data.interactions.forEach(link => ...)` loop of `buildNode`:
collects, in interaction-list order, the child actors of `actorId` (skipping
interactions failing the payload filter, actors already visited, unknown
actor ids, and — under a filter — actors outside the relevant set), marking
each collected child visited immediately. Returns the collected
`(actor, arrow-prefixed payload)` pairs and the grown visited set. -/
def collectChildren (data : SystemsViewData) (dataFilter : Option String)
    (relevant : List String) (actorId : String) :
    List SystemInteraction → List String →
      List (SystemActor × String) × List String
  | [], visited => ([], visited)
  | link :: rest, visited =>
    if (match dataFilter with
        | some f => decide (link.data ≠ f)
        | none => false) then
      collectChildren data dataFilter relevant actorId rest visited
    else
      match
        (if link.source = actorId ∧ link.target ∉ visited then
          some (link.target, "→ ")
        else if link.target = actorId ∧ link.source ∉ visited then
          some (link.source, "← ")
        else none) with
      | none => collectChildren data dataFilter relevant actorId rest visited
      | some (tid, arrow) =>
        match data.actors.find? (fun a => a.id = tid) with
        | none => collectChildren data dataFilter relevant actorId rest visited
        | some targetActor =>
          if dataFilter.isNone ∨ tid ∈ relevant then
            ((targetActor, arrow ++ link.data) ::
              (collectChildren data dataFilter relevant actorId rest
                (tid :: visited)).1,
             (collectChildren data dataFilter relevant actorId rest
               (tid :: visited)).2)
          else
            collectChildren data dataFilter relevant actorId rest visited

/-- The recursive `buildNode` closure, with the mutable global visited set
made an explicit threaded value. Children are collected (and marked visited)
before any recursion, then each child subtree is built in order, threading
the visited set. `fuel` bounds the recursion depth; since every recursion
step visits a previously unvisited actor, depth never exceeds the number of
actors, so the wrapper's `actors.length + 1` budget is never exhausted. -/
def buildNodeF (data : SystemsViewData) (dataFilter : Option String)
    (relevant : List String) :
    Nat → SystemActor → List String → SysNode × List String
  | 0, actor, visited =>
    (.mk actor.id actor.name (if actor.type = "person" then "info" else "process")
      "fact" "ai" actor.type none [], visited)
  | fuel + 1, actor, visited =>
    let cc := collectChildren data dataFilter relevant actor.id
      data.interactions visited
    let built := cc.1.foldl
      (fun (acc : List SysNode × List String) c =>
        let r := buildNodeF data dataFilter relevant fuel c.1 acc.2
        (acc.1 ++ [r.1.withLink c.2], r.2))
      ([], cc.2)
    (.mk actor.id actor.name (if actor.type = "person" then "info" else "process")
      "fact" "ai" actor.type none built.1, built.2)

/-- Embedding of `buildSystemTree`: resolves the root actor (no tree when the id is
unknown), computes the relevant-actor set when a payload filter is active,
and builds the tree with the visited set seeded with the root id. -/
def buildSystemTree (data : SystemsViewData) (rootId : String)
    (dataFilter : Option String) : Option SysNode :=
  match data.actors.find? (fun a => a.id = rootId) with
  | none => none
  | some rootActor =>
    let relevant : List String :=
      match dataFilter with
      | some f => relevantActorIds data f
      | none => []
    some (buildNodeF data dataFilter relevant (data.actors.length + 1)
      rootActor [rootId]).1

mutual

/-- All actor ids of a projected systems tree, depth-first pre-order. -/
def sysIds : SysNode → List String
  | .mk i _ _ _ _ _ _ cs => i :: sysIdsList cs

def sysIdsList : List SysNode → List String
  | [] => []
  | c :: rest => sysIds c ++ sysIdsList rest

end

/-- Number of occurrences of an actor id in a projected systems tree. -/
def sysCount (x : String) (t : SysNode) : Nat := (sysIds t).count x

/-- Ids of the root's direct children. -/
def rootChildIds (t : SysNode) : List String := t.children.map SysNode.id

/-- The spec's example mesh: actors A, B, C with interactions
`A→B (X), B→C (X), A→C (Y)` in that list order. -/
def exMesh : SystemsViewData :=
  ⟨[⟨"A", "A", "system"⟩, ⟨"B", "B", "system"⟩, ⟨"C", "C", "system"⟩],
   [⟨"i1", "A", "B", "send", "X"⟩, ⟨"i2", "B", "C", "send", "X"⟩,
    ⟨"i3", "A", "C", "send", "Y"⟩]⟩

theorem sysIdsList_append (l1 l2 : List SysNode) :
    sysIdsList (l1 ++ l2) = sysIdsList l1 ++ sysIdsList l2 := by
  induction l1 with
  | nil => simp [sysIdsList]
  | cons c rest ih => simp [sysIdsList, ih]

theorem sysIds_withLink (t : SysNode) (s : String) :
    sysIds (t.withLink s) = sysIds t := by
  cases t
  simp [SysNode.withLink, sysIds]

/-- Every child collected under an active payload filter comes from an
interaction whose payload equals the filter, with the child's actor id one of
that interaction's endpoints. -/
theorem collectChildren_mem (data : SystemsViewData) (f : String)
    (rel : List String) (actorId : String) :
    ∀ (links : List SystemInteraction) (visited : List String)
      (c : SystemActor × String),
      c ∈ (collectChildren data (some f) rel actorId links visited).1 →
      ∃ i ∈ links, i.data = f ∧ (c.1.id = i.source ∨ c.1.id = i.target) := by
  intro links
  induction links with
  | nil =>
    intro visited c hc
    simp [collectChildren] at hc
  | cons link rest ih =>
    intro visited c hc
    unfold collectChildren at hc
    split at hc
    · rcases ih _ c hc with ⟨i, hi, hprop⟩
      exact ⟨i, List.mem_cons_of_mem _ hi, hprop⟩
    · rename_i hguard
      have hdata : link.data = f := by
        by_contra hne
        simp [hne] at hguard
      split at hc
      · rcases ih _ c hc with ⟨i, hi, hprop⟩
        exact ⟨i, List.mem_cons_of_mem _ hi, hprop⟩
      · rename_i tid arrow hconn
        split at hc
        · rcases ih _ c hc with ⟨i, hi, hprop⟩
          exact ⟨i, List.mem_cons_of_mem _ hi, hprop⟩
        · rename_i targetActor hfind
          split at hc
          · rcases List.mem_cons.mp hc with hhead | htail
            · subst hhead
              have hta0 := List.find?_some hfind
              have hta : targetActor.id = tid := by simpa using hta0
              have hendpoint : tid = link.target ∨ tid = link.source := by
                split at hconn
                · injection hconn with h1
                  exact Or.inl (congrArg Prod.fst h1.symm)
                · split at hconn
                  · injection hconn with h1
                    exact Or.inr (congrArg Prod.fst h1.symm)
                  · cases hconn
              refine ⟨link, List.mem_cons_self _ _, hdata, ?_⟩
              rcases hendpoint with h | h
              · exact Or.inr (by simp [hta, h])
              · exact Or.inl (by simp [hta, h])
            · rcases ih _ c htail with ⟨i, hi, hprop⟩
              exact ⟨i, List.mem_cons_of_mem _ hi, hprop⟩
          · rcases ih _ c hc with ⟨i, hi, hprop⟩
            exact ⟨i, List.mem_cons_of_mem _ hi, hprop⟩

/-- Ids occurring in the subtrees built by the child-building fold either
come from the accumulator or from some recursively built child subtree. -/
theorem foldl_build_mem (data : SystemsViewData) (df : Option String)
    (rel : List String) (n : Nat) (x : String) :
    ∀ (cs : List (SystemActor × String)) (acc : List SysNode × List String),
      x ∈ sysIdsList ((cs.foldl (fun (acc : List SysNode × List String) c =>
        let r := buildNodeF data df rel n c.1 acc.2
        (acc.1 ++ [r.1.withLink c.2], r.2)) acc).1) →
      x ∈ sysIdsList acc.1 ∨
        ∃ c ∈ cs, ∃ v, x ∈ sysIds ((buildNodeF data df rel n c.1 v).1) := by
  intro cs
  induction cs with
  | nil =>
    intro acc hx
    exact Or.inl hx
  | cons c cs ih =>
    intro acc hx
    rw [List.foldl_cons] at hx
    rcases ih _ hx with h | ⟨c', hc', v, hv⟩
    · have h' : x ∈ sysIdsList (acc.1 ++
          [(buildNodeF data df rel n c.1 acc.2).1.withLink c.2]) := h
      rw [sysIdsList_append] at h'
      rcases List.mem_append.mp h' with h1 | h2
      · exact Or.inl h1
      · right
        refine ⟨c, List.mem_cons_self _ _, acc.2, ?_⟩
        have h2' : x ∈ sysIds ((buildNodeF data df rel n c.1 acc.2).1.withLink
            c.2) ++ sysIdsList [] := h2
        rw [sysIds_withLink] at h2'
        simpa [sysIdsList] using h2'
    · exact Or.inr ⟨c', List.mem_cons_of_mem _ hc', v, hv⟩

/-- Every actor id in a tree built by `buildNodeF` under an active filter is
either the id of the actor the subtree was built for, or an endpoint of an
interaction matching the filter. -/
theorem buildNodeF_ids (data : SystemsViewData) (f : String)
    (rel : List String) :
    ∀ (fuel : Nat) (actor : SystemActor) (visited : List String) (x : String),
      x ∈ sysIds ((buildNodeF data (some f) rel fuel actor visited).1) →
      x = actor.id ∨
        ∃ i ∈ data.interactions, i.data = f ∧ (x = i.source ∨ x = i.target) := by
  intro fuel
  induction fuel with
  | zero =>
    intro actor visited x hx
    left
    rw [show sysIds ((buildNodeF data (some f) rel 0 actor visited).1) =
      [actor.id] from rfl] at hx
    simpa using hx
  | succ n ih =>
    intro actor visited x hx
    have hx2 : x ∈ actor.id ::
        sysIdsList (((collectChildren data (some f) rel actor.id
            data.interactions visited).1.foldl
          (fun (acc : List SysNode × List String) c =>
            let r := buildNodeF data (some f) rel n c.1 acc.2;
            (acc.1 ++ [r.1.withLink c.2], r.2))
          ([], (collectChildren data (some f) rel actor.id data.interactions
            visited).2)).1) := hx
    rcases List.mem_cons.mp hx2 with h | h
    · exact Or.inl h
    · rcases foldl_build_mem data (some f) rel n x _ _ h with h0 | ⟨c, hc, v, hv⟩
      · simp [sysIdsList] at h0
      · rcases ih c.1 v x hv with hcid | hep
        · right
          rcases collectChildren_mem data f rel actor.id data.interactions
            visited c hc with ⟨i, hi, hif, hcep⟩
          exact ⟨i, hi, hif, by rw [hcid]; exact hcep⟩
        · exact Or.inr hep

/-- Placeholder node used only to unwrap defined `Option SysNode` values. -/
def sysDefault : SysNode := .mk "" "" "" "" "" "" none []

/-- The tree built from the example mesh rooted at A with no filter. -/
def exTreeA : SysNode := (buildSystemTree exMesh "A" none).getD sysDefault

/-- The tree built from the example mesh rooted at A with payload filter Y. -/
def exTreeY : SysNode :=
  .mk "A" "A" "process" "fact" "ai" "system" none
    [.mk "C" "C" "process" "fact" "ai" "system" (some "→ Y") []]

/-- C1 counterexample: on the interaction set `{A→B (X), B→C (X), A→C (Y)}`
rooted at A with no filter, actor C is a direct child of A (and the subtree
under B contains no C), contradicting the claim that C appears as a
descendant of B and not as a direct child of A. The scan of A's interactions
marks B visited but checks the not-yet-visited C for the A→C edge, so the
direct edge wins before any recursion happens. -/
theorem buildSystemTree_example_counterexample :
    "C" ∈ rootChildIds exTreeA ∧
    ¬ ∃ b ∈ exTreeA.children, b.id = "B" ∧ "C" ∈ sysIdsList b.children := by
  constructor
  · decide
  · decide

/-- C1 (amended): on the example mesh rooted at A with no filter, C appears
exactly once in the tree — as a direct child of A via the `A→C (Y)` edge
(the root's child subtrees are exactly `[B]` and `[C]`), because A's scan
marks its children visited before any recursion, leaving B's subtree
empty. -/
theorem buildSystemTree_example_once :
    (buildSystemTree exMesh "A" none).map (fun t => t.children.map sysIds) =
      some [["B"], ["C"]] ∧
    (buildSystemTree exMesh "A" none).map (fun t => sysCount "C" t) = some 1 := by
  constructor
  · decide
  · decide

/-- A mesh with a single actor and no interactions. -/
def soloMesh : SystemsViewData := ⟨[⟨"A", "A", "system"⟩], []⟩

/-- C8 counterexample: the root actor itself is always present in the
filtered tree, even when it is an endpoint of no filter-matching interaction
— here actor A of a mesh with no interactions at all, projected under filter
Y, is not an endpoint of any matching interaction yet is the whole produced
tree, so the claim's "every actor that is not an endpoint of some
filter-matching interaction is absent" fails at the root. -/
theorem buildSystemTree_filter_root_counterexample :
    (∀ i ∈ soloMesh.interactions, i.data = "Y" → "A" ≠ i.source ∧ "A" ≠ i.target) ∧
    (buildSystemTree soloMesh "A" (some "Y")).map sysIds = some ["A"] := by
  constructor
  · decide
  · decide

/-- C8 (amended): with an active payload filter, every actor **other than
the root** that is not an endpoint of some filter-matching interaction is
absent from the produced tree (such an actor is unreachable under the
filter; the root itself is always present); on the example mesh rooted at A
with filter Y the tree contains exactly the actors A and C. -/
theorem buildSystemTree_filter_excludes :
    (∀ (data : SystemsViewData) (rootId f x : String) (t : SysNode),
      buildSystemTree data rootId (some f) = some t →
      x ≠ rootId →
      (∀ i ∈ data.interactions, i.data = f → x ≠ i.source ∧ x ≠ i.target) →
      x ∉ sysIds t) ∧
    (buildSystemTree exMesh "A" (some "Y")).map sysIds = some ["A", "C"] := by
  constructor
  · intro data rootId f x t hbuild hxr hend hmem
    unfold buildSystemTree at hbuild
    split at hbuild
    · cases hbuild
    · rename_i rootActor hfind
      have hbuild2 : some ((buildNodeF data (some f) (relevantActorIds data f)
          (data.actors.length + 1) rootActor [rootId]).1) = some t := hbuild
      injection hbuild2 with hb
      have hroot : rootActor.id = rootId := by
        have := List.find?_some hfind
        simpa using this
      rcases buildNodeF_ids data f (relevantActorIds data f)
          (data.actors.length + 1) rootActor [rootId] x (hb.symm ▸ hmem) with
        h | ⟨i, hi, hif, hxe⟩
      · exact hxr (h.trans hroot)
      · rcases hend i hi hif with ⟨hs, ht⟩
        rcases hxe with he | he
        · exact hs he
        · exact ht he
  · decide

/-- C8 witness: actor B is not an endpoint of any Y-interaction of the
example mesh and indeed does not occur in the Y-filtered tree. -/
theorem buildSystemTree_filter_excludes_witness :
    "B" ∉ sysIds exTreeY :=
  buildSystemTree_filter_excludes.1 exMesh "A" "Y" "B" exTreeY rfl
    (by decide) (by decide)

/-- A uniform snapshot payload for the concrete history scenarios. -/
def snapData : MindMapData := .mk "n" "N" [] false [] []

/-- Committing a sequence of snapshots (one per description, all at time 0). -/
def commitSeq (s : AppState) (descs : List String) : AppState :=
  descs.foldl (fun st d => commitToHistory st snapData d 0) s

/-- C3: committing while `historyIndex < length - 1` first discards every
entry after the index, then appends the new snapshot (no eviction can occur
under the capacity invariant `length ≤ 10`); concretely, after
`commit, commit, undo, commit` from the empty state the stack holds exactly
the first and third snapshots — the second commit's snapshot is gone. -/
theorem commit_truncates_redo_branch :
    (∀ (s : AppState) (e : MindMapData) (d : String) (n : Nat),
      s.historyIndex < (s.history.length : Int) - 1 →
      s.history.length ≤ 10 →
      (commitToHistory s e d n).history =
        s.history.take (s.historyIndex + 1).toNat ++ [⟨e, d, n⟩]) ∧
    ((commitSeq (undoStep (commitSeq initialState ["c1", "c2"])) ["c3"]).history.map
        (fun en => en.description) = ["c1", "c3"] ∧
      (commitSeq (undoStep (commitSeq initialState ["c1", "c2"])) ["c3"]).history.length = 2) := by
  refine ⟨?_, by constructor <;> rfl⟩
  intro s e d n hidx hcap
  unfold commitToHistory
  have htake : (s.history.take (s.historyIndex + 1).toNat).length ≤ 9 := by
    rw [List.length_take]
    omega
  simp only []
  rw [if_neg]
  rw [List.length_append, List.length_cons, List.length_nil]
  omega

/-- C3 witness: the truncation equation applied to a concrete two-entry stack
with the index moved back to 0. -/
theorem commit_truncates_redo_branch_witness :
    (commitToHistory ⟨some snapData, [⟨snapData, "c1", 0⟩, ⟨snapData, "c2", 0⟩], 0⟩
        snapData "c3" 0).history =
      [⟨snapData, "c1", 0⟩, ⟨snapData, "c3", 0⟩] := by
  have h := commit_truncates_redo_branch.1
    ⟨some snapData, [⟨snapData, "c1", 0⟩, ⟨snapData, "c2", 0⟩], 0⟩
    snapData "c3" 0 (by decide) (by decide)
  simpa using h

/-- C4: the stack never outgrows its fixed capacity of 10, each commit leaves
the index at the new last entry, and committing 11 times from the empty state
keeps exactly 10 entries with the oldest commit ("c1") the one evicted. -/
theorem history_capacity_bound :
    (∀ (s : AppState) (e : MindMapData) (d : String) (n : Nat),
      s.history.length ≤ 10 → (commitToHistory s e d n).history.length ≤ 10) ∧
    (∀ (s : AppState) (e : MindMapData) (d : String) (n : Nat),
      (commitToHistory s e d n).historyIndex =
        ((commitToHistory s e d n).history.length : Int) - 1) ∧
    ((commitSeq initialState
        ["c1", "c2", "c3", "c4", "c5", "c6", "c7", "c8", "c9", "c10", "c11"]).history.map
        (fun en => en.description) =
      ["c2", "c3", "c4", "c5", "c6", "c7", "c8", "c9", "c10", "c11"] ∧
      (commitSeq initialState
        ["c1", "c2", "c3", "c4", "c5", "c6", "c7", "c8", "c9", "c10", "c11"]).historyIndex = 9) := by
  refine ⟨?_, ?_, by constructor <;> rfl⟩
  · intro s e d n hcap
    unfold commitToHistory
    simp only []
    split
    · rename_i hgt
      rw [List.length_drop]
      rw [List.length_append, List.length_cons, List.length_nil, List.length_take] at hgt ⊢
      omega
    · rename_i hle
      omega
  · intro s e d n
    rfl

/-- C4 witness: the capacity bound applied to the empty stack. -/
theorem history_capacity_bound_witness :
    (commitToHistory initialState snapData "c1" 0).history.length ≤ 10 :=
  history_capacity_bound.1 initialState snapData "c1" 0 (by decide)

/-- C6: when the target id is absent from the document, `updateNodeInTree`
is a silent no-op — the state (live document, history stack, history index)
is returned unchanged, so no history entry is created, no error is surfaced,
and the dependency check never runs. -/
theorem updateNodeInTree_silent_miss
    (m : MindMapData) (hist : List HistoryEntry) (idx : Int) (nodeId : String)
    (updateFn : MindMapData → MindMapData) (d : String) (trig : Bool) (now : Nat)
    (hmiss : findNodeAndPath m nodeId [] = none) :
    updateNodeInTree ⟨some m, hist, idx⟩ nodeId updateFn d trig now =
      ⟨some m, hist, idx⟩ := by
  unfold updateNodeInTree
  simp [hmiss]

/-- C6 witness: updating a node id absent from a concrete two-node document
leaves the state untouched. -/
theorem updateNodeInTree_silent_miss_witness :
    updateNodeInTree ⟨some (.mk "r" "Root" [] false [] [.mk "a" "A" [] false [] []]),
        [], -1⟩ "ghost" (fun nd => nd) "edit" true 0 =
      ⟨some (.mk "r" "Root" [] false [] [.mk "a" "A" [] false [] []]), [], -1⟩ :=
  updateNodeInTree_silent_miss (.mk "r" "Root" [] false [] [.mk "a" "A" [] false [] []])
    [] (-1) "ghost" (fun nd => nd) "edit" true 0 (by rfl)

mutual

theorem checkDepNode_idem (c : String) (t : MindMapData) :
    checkDepNode c (checkDepNode c t) = checkDepNode c t := by
  match t with
  | .mk i l w f fs cs =>
    by_cases hw : c ∈ w
    · by_cases hfs : c ∈ fs
      · simp [checkDepNode, hw, hfs, checkDepList_idem c cs]
      · simp [checkDepNode, hw, hfs, checkDepList_idem c cs]
    · simp [checkDepNode, hw, checkDepList_idem c cs]

theorem checkDepList_idem (c : String) (l : List MindMapData) :
    checkDepList c (checkDepList c l) = checkDepList c l := by
  match l with
  | [] => rfl
  | x :: xs =>
    simp only [checkDepList]
    rw [checkDepNode_idem c x, checkDepList_idem c xs]

end

mutual

theorem checkDepNode_flags (c : String) (t : MindMapData) :
    ∀ n ∈ allNodes (checkDepNode c t), c ∈ n.watchedNodeIds →
      n.isFlaggedForReview = true ∧ c ∈ n.flaggedSourceIds := by
  match t with
  | .mk i l w f fs cs =>
    intro n hn hw
    rw [show checkDepNode c (.mk i l w f fs cs) =
        .mk i l w (if c ∈ w then true else f)
          (if c ∈ w then (if c ∈ fs then fs else fs ++ [c]) else fs)
          (checkDepList c cs) from by simp [checkDepNode]] at hn
    rw [show allNodes (MindMapData.mk i l w (if c ∈ w then true else f)
          (if c ∈ w then (if c ∈ fs then fs else fs ++ [c]) else fs)
          (checkDepList c cs)) =
        MindMapData.mk i l w (if c ∈ w then true else f)
          (if c ∈ w then (if c ∈ fs then fs else fs ++ [c]) else fs)
          (checkDepList c cs) :: allNodesList (checkDepList c cs) from by
      simp [allNodes]] at hn
    rcases List.mem_cons.mp hn with h | h
    · subst h
      simp only [MindMapData.watchedNodeIds] at hw
      constructor
      · simp [MindMapData.isFlaggedForReview, hw]
      · simp only [MindMapData.flaggedSourceIds]
        by_cases hfs : c ∈ fs
        · simp [hw, hfs]
        · simp [hw, hfs]
    · exact checkDepList_flags c cs n h hw

theorem checkDepList_flags (c : String) (l : List MindMapData) :
    ∀ n ∈ allNodesList (checkDepList c l), c ∈ n.watchedNodeIds →
      n.isFlaggedForReview = true ∧ c ∈ n.flaggedSourceIds := by
  match l with
  | [] => intro n hn; simp [checkDepList, allNodesList] at hn
  | x :: xs =>
    intro n hn hw
    rw [show checkDepList c (x :: xs) = checkDepNode c x :: checkDepList c xs from by
      simp [checkDepList]] at hn
    rw [show allNodesList (checkDepNode c x :: checkDepList c xs) =
        allNodes (checkDepNode c x) ++ allNodesList (checkDepList c xs) from by
      simp [allNodesList]] at hn
    rcases List.mem_append.mp hn with h | h
    · exact checkDepNode_flags c x n h hw
    · exact checkDepList_flags c xs n h hw

end

/-- C5: dependency propagation is idempotent for a fixed changed id — running
`checkDependencies` twice yields a tree structurally equal to running it once
(in particular the changed id is never appended twice to any
`flaggedSourceIds`) — and in the result every node whose `watchedNodeIds`
contains the changed id is flagged for review with the changed id recorded in
its `flaggedSourceIds`. -/
theorem checkDependencies_idempotent :
    (∀ (t : MindMapData) (c : String),
      checkDependencies (checkDependencies t c) c = checkDependencies t c) ∧
    (∀ (t : MindMapData) (c : String), ∀ n ∈ allNodes (checkDependencies t c),
      c ∈ n.watchedNodeIds →
      n.isFlaggedForReview = true ∧ c ∈ n.flaggedSourceIds) :=
  ⟨fun t c => checkDepNode_idem c t, fun t c => checkDepNode_flags c t⟩

/-- C5 witness: propagation through a concrete two-node tree where the child
watches the changed id. -/
theorem checkDependencies_idempotent_witness :
    checkDependencies (checkDependencies
        (.mk "r" "R" [] false [] [.mk "a" "A" ["x"] false [] []]) "x") "x" =
      checkDependencies (.mk "r" "R" [] false [] [.mk "a" "A" ["x"] false [] []]) "x" ∧
    ((MindMapData.mk "a" "A" ["x"] true ["x"] []).isFlaggedForReview = true ∧
      "x" ∈ (MindMapData.mk "a" "A" ["x"] true ["x"] []).flaggedSourceIds) := by
  constructor
  · exact checkDependencies_idempotent.1
      (.mk "r" "R" [] false [] [.mk "a" "A" ["x"] false [] []]) "x"
  · refine checkDependencies_idempotent.2
      (.mk "r" "R" [] false [] [.mk "a" "A" ["x"] false [] []]) "x"
      (.mk "a" "A" ["x"] true ["x"] []) ?_ (by decide)
    show _ ∈ allNodes (checkDependencies
      (.mk "r" "R" [] false [] [.mk "a" "A" ["x"] false [] []]) "x")
    rw [show allNodes (checkDependencies
        (.mk "r" "R" [] false [] [.mk "a" "A" ["x"] false [] []]) "x") =
      [.mk "r" "R" [] false [] [.mk "a" "A" ["x"] true ["x"] []],
       .mk "a" "A" ["x"] true ["x"] []] from rfl]
    exact List.mem_cons_of_mem _ (List.mem_cons_self _ _)

theorem id_mem_allIds (t : MindMapData) : t.id ∈ allIds t := by
  cases t
  simp [allIds, MindMapData.id]

theorem calcNum_self (t : MindMapData) (n : String) :
    calculateNodeNumber t t.id n = some n := by
  cases t
  simp [calculateNodeNumber, MindMapData.id]

mutual

theorem calcNum_not_found (root : MindMapData) (targetId : String) (n : String)
    (h : targetId ∉ allIds root) : calculateNodeNumber root targetId n = none := by
  match root with
  | .mk i l w f fs cs =>
    rw [show allIds (.mk i l w f fs cs) = i :: allIdsList cs from by simp [allIds]] at h
    have hne : ¬ i = targetId := fun he =>
      h (List.mem_cons.mpr (Or.inl he.symm))
    have h2 : targetId ∉ allIdsList cs := fun hm => h (List.mem_cons_of_mem _ hm)
    simp only [calculateNodeNumber]
    rw [if_neg hne]
    exact calcNumChildren_not_found targetId _ 1 cs h2

theorem calcNumChildren_not_found (targetId base : String) (idx : Nat)
    (l : List MindMapData) (h : targetId ∉ allIdsList l) :
    calcNumChildren targetId base idx l = none := by
  match l with
  | [] => rfl
  | c :: rest =>
    rw [show allIdsList (c :: rest) = allIds c ++ allIdsList rest from by
      simp [allIdsList]] at h
    have h1 : targetId ∉ allIds c := fun hm => h (List.mem_append_left _ hm)
    have h2 : targetId ∉ allIdsList rest := fun hm => h (List.mem_append_right _ hm)
    simp only [calcNumChildren]
    rw [calcNum_not_found c targetId _ h1]
    exact calcNumChildren_not_found targetId base (idx + 1) rest h2

end

theorem calcNum_step (i l : String) (w : List String) (f : Bool)
    (fs : List String) (cs : List MindMapData) (targetId n : String)
    (hne : ¬ i = targetId) :
    calculateNodeNumber (.mk i l w f fs cs) targetId n =
      calcNumChildren targetId (if n = "1.0" then "1" else n) 1 cs := by
  simp only [calculateNodeNumber]
  rw [if_neg hne]

theorem calcNumChildren_step_found (targetId base : String) (idx : Nat)
    (c : MindMapData) (rest : List MindMapData) (r : String)
    (h : calculateNodeNumber c targetId (base ++ "." ++ toString idx) = some r) :
    calcNumChildren targetId base idx (c :: rest) = some r := by
  simp only [calcNumChildren]
  rw [h]

theorem calcNumChildren_step_miss (targetId base : String) (idx : Nat)
    (c : MindMapData) (rest : List MindMapData)
    (h : calculateNodeNumber c targetId (base ++ "." ++ toString idx) = none) :
    calcNumChildren targetId base idx (c :: rest) =
      calcNumChildren targetId base (idx + 1) rest := by
  simp only [calcNumChildren]
  rw [h]

/-- C9: the hierarchical numbering returns the sentinel "1.0" for the root's
own id, "1.1" for the root's first child, "1.1.2" for that child's second
child (under the documents' unique-node-ids invariant), and `none` when the
target id is absent from the tree. -/
theorem calculateNodeNumber_spec :
    (∀ t : MindMapData, nodeNumber t t.id = some "1.0") ∧
    (∀ (t c1 : MindMapData) (cs : List MindMapData),
      (allIds t).Nodup → t.children = c1 :: cs →
      nodeNumber t c1.id = some "1.1") ∧
    (∀ (t c1 g1 g2 : MindMapData) (cs gs : List MindMapData),
      (allIds t).Nodup → t.children = c1 :: cs → c1.children = g1 :: g2 :: gs →
      nodeNumber t g2.id = some "1.1.2") ∧
    (∀ (t : MindMapData) (targetId : String),
      targetId ∉ allIds t → nodeNumber t targetId = none) := by
  refine ⟨?_, ?_, ?_, ?_⟩
  · intro t
    exact calcNum_self t "1.0"
  · rintro ⟨i, l, w, f, fs, cs0⟩ c1 cs hnd hch
    simp only [MindMapData.children] at hch
    subst hch
    rw [show allIds (.mk i l w f fs (c1 :: cs)) = i :: allIdsList (c1 :: cs) from by
      simp [allIds]] at hnd
    rw [show allIdsList (c1 :: cs) = allIds c1 ++ allIdsList cs from by
      simp [allIdsList]] at hnd
    rcases List.nodup_cons.mp hnd with ⟨hi, _⟩
    have hic1 : ¬ i = c1.id := fun he => hi (List.mem_append_left _ (he ▸ id_mem_allIds c1))
    show calculateNodeNumber (.mk i l w f fs (c1 :: cs)) c1.id "1.0" = some "1.1"
    exact (calcNum_step i l w f fs (c1 :: cs) c1.id "1.0" hic1).trans
      (calcNumChildren_step_found c1.id "1" 1 c1 cs "1.1" (calcNum_self c1 "1.1"))
  · rintro ⟨i, l, w, f, fs, cs0⟩ c1 g1 g2 cs gs hnd hch hgch
    simp only [MindMapData.children] at hch
    subst hch
    rcases c1 with ⟨i1, l1, w1, f1, fs1, cs1⟩
    simp only [MindMapData.children] at hgch
    subst hgch
    rw [show allIds (.mk i l w f fs (.mk i1 l1 w1 f1 fs1 (g1 :: g2 :: gs) :: cs)) =
        i :: (allIds (.mk i1 l1 w1 f1 fs1 (g1 :: g2 :: gs)) ++ allIdsList cs) from by
      simp [allIds, allIdsList]] at hnd
    rw [show allIds (.mk i1 l1 w1 f1 fs1 (g1 :: g2 :: gs)) =
        i1 :: (allIds g1 ++ (allIds g2 ++ allIdsList gs)) from by
      simp [allIds, allIdsList]] at hnd
    rcases List.nodup_cons.mp hnd with ⟨hi, hnd2⟩
    rcases (List.nodup_append.mp hnd2).1 |> List.nodup_cons.mp with ⟨hi1, hnd3⟩
    rcases List.nodup_append.mp hnd3 with ⟨_, _, hdisj⟩
    have hg2mem : g2.id ∈ allIds g2 ++ allIdsList gs :=
      List.mem_append_left _ (id_mem_allIds g2)
    have hig2 : ¬ i = g2.id := fun he => by
      apply hi
      apply List.mem_append_left
      exact List.mem_cons_of_mem _
        (List.mem_append_right _ (he ▸ hg2mem))
    have hi1g2 : ¬ i1 = g2.id := fun he => by
      apply hi1
      exact List.mem_append_right _ (he ▸ hg2mem)
    have hg1g2 : g2.id ∉ allIds g1 := fun hm => hdisj hm hg2mem
    show calculateNodeNumber
      (.mk i l w f fs (.mk i1 l1 w1 f1 fs1 (g1 :: g2 :: gs) :: cs)) g2.id "1.0" =
      some "1.1.2"
    have inner3 : calcNumChildren g2.id "1.1" 2 (g2 :: gs) = some "1.1.2" :=
      calcNumChildren_step_found g2.id "1.1" 2 g2 gs "1.1.2" (calcNum_self g2 "1.1.2")
    have hmiss : calculateNodeNumber g1 g2.id ("1.1" ++ "." ++ toString 1) = none :=
      calcNum_not_found g1 g2.id _ hg1g2
    have inner2 : calcNumChildren g2.id "1.1" 1 (g1 :: g2 :: gs) = some "1.1.2" :=
      (calcNumChildren_step_miss g2.id "1.1" 1 g1 (g2 :: gs) hmiss).trans inner3
    have inner : calculateNodeNumber (.mk i1 l1 w1 f1 fs1 (g1 :: g2 :: gs)) g2.id
        "1.1" = some "1.1.2" :=
      (calcNum_step i1 l1 w1 f1 fs1 (g1 :: g2 :: gs) g2.id "1.1" hi1g2).trans inner2
    exact (calcNum_step i l w f fs (.mk i1 l1 w1 f1 fs1 (g1 :: g2 :: gs) :: cs)
        g2.id "1.0" hig2).trans
      (calcNumChildren_step_found g2.id "1" 1
        (.mk i1 l1 w1 f1 fs1 (g1 :: g2 :: gs)) cs "1.1.2" inner)
  · intro t targetId h
    exact calcNum_not_found t targetId "1.0" h

/-- C9 witness: the numbering claims evaluated on a concrete three-level
tree. -/
theorem calculateNodeNumber_spec_witness :
    nodeNumber (.mk "r" "R" [] false []
        [.mk "c1" "C1" [] false [] [.mk "g1" "G1" [] false [] [],
          .mk "g2" "G2" [] false [] []],
         .mk "c2" "C2" [] false [] []]) "r" = some "1.0" ∧
    nodeNumber (.mk "r" "R" [] false []
        [.mk "c1" "C1" [] false [] [.mk "g1" "G1" [] false [] [],
          .mk "g2" "G2" [] false [] []],
         .mk "c2" "C2" [] false [] []]) "c1" = some "1.1" ∧
    nodeNumber (.mk "r" "R" [] false []
        [.mk "c1" "C1" [] false [] [.mk "g1" "G1" [] false [] [],
          .mk "g2" "G2" [] false [] []],
         .mk "c2" "C2" [] false [] []]) "g2" = some "1.1.2" ∧
    nodeNumber (.mk "r" "R" [] false []
        [.mk "c1" "C1" [] false [] [.mk "g1" "G1" [] false [] [],
          .mk "g2" "G2" [] false [] []],
         .mk "c2" "C2" [] false [] []]) "zz" = none := by
  refine ⟨?_, ?_, ?_, ?_⟩
  · exact calculateNodeNumber_spec.1
      (.mk "r" "R" [] false []
        [.mk "c1" "C1" [] false [] [.mk "g1" "G1" [] false [] [],
          .mk "g2" "G2" [] false [] []],
         .mk "c2" "C2" [] false [] []])
  · exact calculateNodeNumber_spec.2.1
      (.mk "r" "R" [] false []
        [.mk "c1" "C1" [] false [] [.mk "g1" "G1" [] false [] [],
          .mk "g2" "G2" [] false [] []],
         .mk "c2" "C2" [] false [] []])
      (.mk "c1" "C1" [] false [] [.mk "g1" "G1" [] false [] [],
        .mk "g2" "G2" [] false [] []])
      [.mk "c2" "C2" [] false [] []]
      (by decide) rfl
  · exact calculateNodeNumber_spec.2.2.1
      (.mk "r" "R" [] false []
        [.mk "c1" "C1" [] false [] [.mk "g1" "G1" [] false [] [],
          .mk "g2" "G2" [] false [] []],
         .mk "c2" "C2" [] false [] []])
      (.mk "c1" "C1" [] false [] [.mk "g1" "G1" [] false [] [],
        .mk "g2" "G2" [] false [] []])
      (.mk "g1" "G1" [] false [] []) (.mk "g2" "G2" [] false [] [])
      [.mk "c2" "C2" [] false [] []] []
      (by decide) rfl rfl
  · exact calculateNodeNumber_spec.2.2.2
      (.mk "r" "R" [] false []
        [.mk "c1" "C1" [] false [] [.mk "g1" "G1" [] false [] [],
          .mk "g2" "G2" [] false [] []],
         .mk "c2" "C2" [] false [] []]) "zz" (by decide)

/-- Auto-linker example: decision with branches `["Yes", "No"]`, no targets. -/
def stepYesNo : ProcessStep :=
  ⟨"d1", 1, .decision, "Decide", "User", false,
   [⟨"bY", "Yes", none⟩, ⟨"bN", "No", none⟩]⟩

/-- Auto-linker example: the immediately following action step. -/
def stepAfter : ProcessStep := ⟨"n2", 2, .action, "Do", "User", false, []⟩

/-- Auto-linker example: decision with branches `["Retry", "Abort"]` — no
positive-keyword match. -/
def stepRetryAbort : ProcessStep :=
  ⟨"d2", 1, .decision, "Decide", "User", false,
   [⟨"bR", "Retry", none⟩, ⟨"bA", "Abort", none⟩]⟩

/-- C7: the auto-linker modifies exactly the decision steps that have
branches, none resolved, and a following step: such a step's branch at the
index of the first positive-keyword label (or index 0 when none matches)
gets the next step's id, every other branch and every other step is
unchanged; `["Yes","No"]` links "Yes" and `["Retry","Abort"]` links
"Retry". -/
theorem autoLinkDecisions_spec :
    (∀ (steps : List ProcessStep) (i : Nat) (step : ProcessStep),
      steps[i]? = some step →
      ¬(step.type = StepType.decision ∧ step.branches ≠ [] ∧
        (∀ b ∈ step.branches, b.targetStepId = none) ∧ i + 1 < steps.length) →
      (autoLinkDecisions steps)[i]? = some step) ∧
    (∀ (steps : List ProcessStep) (i : Nat) (step nextStep : ProcessStep),
      steps[i]? = some step → steps[i + 1]? = some nextStep →
      step.type = StepType.decision → step.branches ≠ [] →
      (∀ b ∈ step.branches, b.targetStepId = none) →
      (autoLinkDecisions steps)[i]? = some { step with
        branches := setBranchTarget step.branches
          ((step.branches.findIdx? fun b =>
            positiveKeywords.any fun k => strIncludes (lowerStr b.label) k).getD 0)
          nextStep.id }) ∧
    (∀ (bs : List Branch) (j k : Nat) (tid : String) (b : Branch),
      bs[j]? = some b →
      (setBranchTarget bs k tid)[j]? =
        some (if j = k then { b with targetStepId := some tid } else b)) ∧
    autoLinkDecisions [stepYesNo, stepAfter] =
      [{ stepYesNo with branches := [⟨"bY", "Yes", some "n2"⟩, ⟨"bN", "No", none⟩] },
       stepAfter] ∧
    autoLinkDecisions [stepRetryAbort, stepAfter] =
      [{ stepRetryAbort with
          branches := [⟨"bR", "Retry", some "n2"⟩, ⟨"bA", "Abort", none⟩] },
       stepAfter] := by
  refine ⟨?_, ?_, ?_, by decide, by decide⟩
  · intro steps i step hstep hnot
    unfold autoLinkDecisions
    rw [List.getElem?_map, List.getElem?_enum, hstep]
    show some (autoLinkStep steps i step) = some step
    unfold autoLinkStep
    by_cases hA : step.type = StepType.decision ∧ step.branches ≠ []
    · rw [if_pos hA]
      split
      · rename_i next hn
        have hlen : i + 1 < steps.length := by
          by_contra hge
          rw [List.getElem?_eq_none (Nat.le_of_not_lt hge)] at hn
          cases hn
        have hex : ∃ b ∈ step.branches, ¬ b.targetStepId = none := by
          by_contra hall
          push_neg at hall
          exact hnot ⟨hA.1, hA.2, hall, hlen⟩
        have hany : step.branches.any (fun b => b.targetStepId.isSome) = true := by
          rcases hex with ⟨b, hb, hbs⟩
          refine List.any_eq_true.mpr ⟨b, hb, ?_⟩
          cases hts : b.targetStepId with
          | none => exact absurd hts hbs
          | some v => simp [Option.isSome, hts]
        rw [if_pos hany]
      · rfl
    · rw [if_neg hA]
  · intro steps i step nextStep hstep hnext htype hbr hall
    unfold autoLinkDecisions
    rw [List.getElem?_map, List.getElem?_enum, hstep]
    show some (autoLinkStep steps i step) = _
    unfold autoLinkStep
    rw [if_pos ⟨htype, hbr⟩]
    split
    · rename_i next hn
      rw [hnext] at hn
      injection hn with hn
      subst hn
      have hany : step.branches.any (fun b => b.targetStepId.isSome) = false := by
        rw [List.any_eq_false]
        intro b hb
        rw [hall b hb]
        simp [Option.isSome]
      rw [if_neg (by rw [hany]; exact Bool.false_ne_true)]
    · rename_i hn
      rw [hnext] at hn
      cases hn
  · intro bs
    induction bs with
    | nil => intro j k tid b hb; simp at hb
    | cons b0 rest ih =>
      intro j k tid b hb
      cases k with
      | zero =>
        cases j with
        | zero =>
          simp only [List.getElem?_cons_zero, Option.some.injEq] at hb
          subst hb
          simp [setBranchTarget]
        | succ j' =>
          simp only [List.getElem?_cons_succ] at hb
          simp [setBranchTarget, hb]
      | succ k' =>
        cases j with
        | zero =>
          simp only [List.getElem?_cons_zero, Option.some.injEq] at hb
          subst hb
          simp [setBranchTarget]
        | succ j' =>
          simp only [List.getElem?_cons_succ] at hb
          have := ih j' k' tid b hb
          simp only [setBranchTarget, List.getElem?_cons_succ]
          rw [this]
          by_cases hjk : j' = k'
          · simp [hjk]
          · simp [hjk, Nat.succ_ne_succ]

/-- C7 witness: the linking and no-op branches of the auto-linker applied to
the concrete `["Yes","No"]` example list. -/
theorem autoLinkDecisions_spec_witness :
    (autoLinkDecisions [stepYesNo, stepAfter])[0]? = some { stepYesNo with
      branches := setBranchTarget stepYesNo.branches
        ((stepYesNo.branches.findIdx? fun b =>
          positiveKeywords.any fun k => strIncludes (lowerStr b.label) k).getD 0)
        stepAfter.id } ∧
    (autoLinkDecisions [stepYesNo, stepAfter])[1]? = some stepAfter := by
  constructor
  · exact autoLinkDecisions_spec.2.1 [stepYesNo, stepAfter] 0 stepYesNo stepAfter
      rfl rfl rfl (by decide) (by decide)
  · exact autoLinkDecisions_spec.1 [stepYesNo, stepAfter] 1 stepAfter rfl (by decide)

/-- C10 witness: a dangling branch (target `"ghost"`, absent from the list)
is omitted, while an unresolved branch produces the placeholder leaf. -/
theorem buildTree_dangling_branch_omitted_witness :
    buildBranches cycSteps [] [⟨"bX", "lost", some "ghost"⟩] =
      buildBranches cycSteps [] [] ∧
    buildBranches cycSteps [] [⟨"bY", "open", none⟩] =
      DisplayNode.mk ("missing-" ++ "bY") "Undefined Path" "" 0 .placeholder
        (some "open") [] :: buildBranches cycSteps [] [] := by
  constructor
  · exact buildTree_dangling_branch_omitted.1 cycSteps [] ⟨"bX", "lost", some "ghost"⟩ []
      "ghost" rfl (by rfl)
  · exact buildTree_dangling_branch_omitted.2 cycSteps [] ⟨"bY", "open", none⟩ [] rfl
